import Mathlib

/-!
Verification development for `src/pattern_search/postprocess_pattern_catalog.py`,
a batch pipeline that parses a pipe-separated pattern-rewrite log, builds a
search index mapping operation names to pattern names, and renders one report
page per pattern.

The Python source is shallowly embedded: file contents become `List String`
(one element per line), Python dicts with string keys become association lists,
Python sets become duplicate-free lists, the process-global `unique_id` counter
is threaded explicitly as a `Nat`, and fallible dictionary accesses or raised
exceptions become `Except String` results.  All definitions are structural so
that concrete inputs evaluate by `decide` or `rfl`.
-/

namespace PatternCatalog

/-- Python `str.isspace` membership for the ASCII whitespace characters, used
by `str.strip()` in `parse_file`. -/
def pyIsSpace (c : Char) : Bool :=
  c = ' ' ∨ c = '\t' ∨ c = '\n' ∨ c = '\r' ∨ c = '\x0b' ∨ c = '\x0c'

/-- Python `str.strip()` over a character list: drop whitespace from both ends. -/
def stripList (l : List Char) : List Char :=
  ((l.dropWhile pyIsSpace).reverse.dropWhile pyIsSpace).reverse

/-- Python `line.split(" | ")` specialised to the three-character separator
used in `parse_file`: leftmost, non-overlapping occurrences.  `cur` is the
field accumulated so far. -/
def splitBar : List Char → List Char → List (List Char)
  | [], cur => [cur]
  | [c], cur => [cur ++ [c]]
  | [c1, c2], cur => [cur ++ [c1, c2]]
  | c1 :: c2 :: c3 :: rest, cur =>
    if c1 = ' ' ∧ c2 = '|' ∧ c3 = ' ' then cur :: splitBar rest []
    else splitBar (c2 :: c3 :: rest) (cur ++ [c1])

/-- Python `name.split("::")` specialised to the two-character separator used
in `sanitize_filename` and `extract_class_name`. -/
def splitCol : List Char → List Char → List (List Char)
  | [], cur => [cur]
  | [c], cur => [cur ++ [c]]
  | c1 :: c2 :: rest, cur =>
    if c1 = ':' ∧ c2 = ':' then cur :: splitCol rest []
    else splitCol (c2 :: rest) (cur ++ [c1])

/-- One parsed line of the catalog, mirroring the Python dict built in
`parse_file`: the `type` key is always present; `old_op`/`new_op` are present
exactly for the four-field Replaced-with-op shape, `op` for the other shape.
Absent dict keys are `none`. -/
structure ModRecord where
  type : String
  old_op : Option String
  new_op : Option String
  op : Option String
deriving DecidableEq, Repr

/-- `defaultdict(list)` insertion: append `x` to the list stored at `key`,
creating the key at the end on first use (Python dicts preserve insertion
order). -/
def addRecord {α : Type} : List (String × List α) → String → α → List (String × List α)
  | [], key, x => [(key, [x])]
  | (k, xs) :: rest, key, x =>
    if k = key then (k, xs ++ [x]) :: rest
    else (k, xs) :: addRecord rest key x

/-- The per-line body of the loop in `parse_file` (source lines 15-42):
strip the line, skip it when blank or when it has fewer than 3 fields,
otherwise classify it into a `ModRecord` keyed by the pattern name. -/
def parseLine (line : String) : Option (String × ModRecord) :=
  let l := stripList line.toList
  if l = [] then none
  else
    let parts := splitBar l []
    if parts.length < 3 then none
    else
      let pattern_name :=
        if stripList (parts.getD 0 []) ≠ [] then String.mk (parts.getD 0 []) else "unknown"
      let modification_type := String.mk (parts.getD 1 [])
      if modification_type = "notifyOperationReplaced (with op)" ∧ parts.length = 4 then
        some (pattern_name,
          { type := modification_type
            old_op := some (String.mk (parts.getD 2 []))
            new_op := some (String.mk (parts.getD 3 []))
            op := none })
      else
        some (pattern_name,
          { type := modification_type
            old_op := none
            new_op := none
            op := some (String.mk (parts.getD 2 [])) })

/-- `parse_file` (source lines 10-44).  The file is given as its list of
lines; the result is the `defaultdict(list)` keyed by pattern name. -/
def parse_file (lines : List String) : List (String × List ModRecord) :=
  lines.foldl
    (fun acc line =>
      match parseLine line with
      | none => acc
      | some (p, r) => addRecord acc p r)
    []

/-- Python `set.add` on a `defaultdict(set)` modelled as an association list
of duplicate-free lists: add `v` to the set stored at `key`, creating the key
on first use (`preprocess_data`, source lines 159-170). -/
def setAdd : List (String × List String) → String → String → List (String × List String)
  | [], key, v => [(key, [v])]
  | (k, vs) :: rest, key, v =>
    if k = key then (k, if v ∈ vs then vs else vs ++ [v]) :: rest
    else (k, vs) :: setAdd rest key v

/-- The body of the indexing loop in `preprocess_data` (source lines 164-170):
dispatch on the `type` string; the Replaced-with-op label reads the `old_op`
and `new_op` dict keys, every other label reads `op`.  A missing key is a
Python `KeyError`, modelled as `Except.error`. -/
def indexRecord (idx : List (String × List String)) (pname : String) (r : ModRecord) :
    Except String (List (String × List String)) :=
  if r.type = "notifyOperationReplaced (with op)" then
    match r.old_op with
    | none => .error ("KeyError: old_op")
    | some o =>
      match r.new_op with
      | none => .error ("KeyError: new_op")
      | some n => .ok (setAdd (setAdd idx o pname) n pname)
  else
    match r.op with
    | none => .error ("KeyError: op")
    | some o => .ok (setAdd idx o pname)

/-- Inner loop of `preprocess_data`: fold `indexRecord` over one pattern's
records. -/
def indexMods (pname : String) : List ModRecord → List (String × List String) →
    Except String (List (String × List String))
  | [], idx => .ok idx
  | r :: rs, idx =>
    match indexRecord idx pname r with
    | .error e => .error e
    | .ok idx' => indexMods pname rs idx'

/-- Outer loop of `preprocess_data`: fold over all patterns. -/
def indexPatterns : List (String × List ModRecord) → List (String × List String) →
    Except String (List (String × List String))
  | [], idx => .ok idx
  | (p, rs) :: ps, idx =>
    match indexMods p rs idx with
    | .error e => .error e
    | .ok idx' => indexPatterns ps idx'

/-- The search index built by `preprocess_data` from the parsed patterns
(source lines 159-170), starting from the empty `defaultdict(set)`. -/
def buildIndex (patterns : List (String × List ModRecord)) :
    Except String (List (String × List String)) :=
  indexPatterns patterns []

/-- Decimal digit characters of a natural number, most significant first,
with explicit fuel so the definition is structural.  Models Python's
`f"_{unique_id}"` rendering. -/
def digitsGo : Nat → Nat → List Char
  | _, 0 => []
  | 0, _ => []
  | f + 1, n + 1 => digitsGo f ((n + 1) / 10) ++ [Char.ofNat (48 + (n + 1) % 10)]

/-- Decimal rendering of a natural number as characters (`"0"` for zero). -/
def natDigits (n : Nat) : List Char :=
  if n = 0 then ['0'] else digitsGo n n

/-- Characters kept verbatim by `re.sub(r"[^a-zA-Z0-9_-]", "_", name)`. -/
def isAllowed (c : Char) : Bool :=
  decide ((97 ≤ c.toNat ∧ c.toNat ≤ 122) ∨ (65 ≤ c.toNat ∧ c.toNat ≤ 90) ∨
    (48 ≤ c.toNat ∧ c.toNat ≤ 57) ∨ c = '_' ∨ c = '-')

/-- The counter-free part of `sanitize_filename` (source lines 54-57):
drop the template suffix at the first `<`, keep the substring after the last
`::`, replace disallowed characters by `_`. -/
def sanitizedBase (pattern_name : String) : List Char :=
  ((splitCol (pattern_name.toList.takeWhile (fun c => c != '<')) []).getLastD []).map
    (fun c => if isAllowed c then c else '_')

/-- `sanitize_filename` (source lines 50-59) with the process-global
`unique_id` threaded explicitly: returns the lower-cased identifier and the
incremented counter. -/
def sanitize_filename (pattern_name : String) (uid : Nat) : String × Nat :=
  (String.mk ((sanitizedBase pattern_name ++ '_' :: natDigits uid).map Char.toLower), uid + 1)

/-- `extract_class_name` (source lines 62-68). -/
def extract_class_name (pattern_name : String) : String :=
  String.mk ((splitCol (pattern_name.toList.takeWhile (fun c => c != '<')) []).getLastD [])

/-- POSIX `os.path.join` for the two-argument shapes used by the script. -/
def pathJoin (a b : String) : String :=
  if a = "" then b
  else if a.toList.getLastD ' ' = '/' then a ++ b
  else a ++ "/" ++ b

/-- Path of the report file written by `create_hugo_post` (source line 74). -/
def postFilePath (output_dir filename : String) : String :=
  pathJoin output_dir (filename ++ ".md")

/-- The bucket label each recognized modification-type string is grouped
under in `create_hugo_post` (source lines 84-94); `none` for the
`ValueError` branch of line 96. -/
def bucketLabel (t : String) : Option String :=
  if t = "notifyOperationReplaced (with op)" then some ("Operations replaced")
  else if t = "notifyOperationInserted" then some ("Operations inserted")
  else if t = "notifyOperationErased" then some ("Operations erased")
  else if t = "notifyOperationModified" then some ("Operations modified")
  else if t = "notifyOperationReplaced (with values)" then some ("Operations replaced with values")
  else none

/-- The grouping loop of `create_hugo_post` (source lines 82-96):
`operations_by_type` is a `defaultdict(list)`, so bucket labels appear in
first-seen order; an unrecognized label raises `ValueError`. -/
def groupByType : List ModRecord → List (String × List ModRecord) →
    Except String (List (String × List ModRecord))
  | [], acc => .ok acc
  | r :: rs, acc =>
    match bucketLabel r.type with
    | some l => groupByType rs (addRecord acc l r)
    | none => .error ("unknown modification type: " ++ r.type)

/-- One bullet line of the report body (source lines 117-120): the
"Operations replaced" bucket renders the `old_op`/`new_op` pair, every other
bucket renders the single `op` name.  Missing dict keys are `KeyError`s. -/
def renderLine (op_type : String) (r : ModRecord) : Except String String :=
  if op_type = "Operations replaced" then
    match r.old_op with
    | none => .error ("KeyError: old_op")
    | some o =>
      match r.new_op with
      | none => .error ("KeyError: new_op")
      | some n => .ok ("- `" ++ o ++ "` → `" ++ n ++ "`")
  else
    match r.op with
    | none => .error ("KeyError: op")
    | some o => .ok ("- `" ++ o ++ "`")

/-- The bullet lines of one section, each terminated by a newline. -/
def renderOps (op_type : String) : List ModRecord → Except String String
  | [] => .ok ("")
  | r :: rs =>
    match renderLine op_type r with
    | .error e => .error e
    | .ok s =>
      match renderOps op_type rs with
      | .error e => .error e
      | .ok t => .ok (s ++ "\n" ++ t)

/-- The section loop of `create_hugo_post` (source lines 114-121), emitting
one `### <label>` section per bucket in the grouped dict's iteration order. -/
def renderSections : List (String × List ModRecord) → Except String String
  | [] => .ok ("")
  | (label, ops) :: rest =>
    match renderOps label ops with
    | .error e => .error e
    | .ok body =>
      match renderSections rest with
      | .error e => .error e
      | .ok t => .ok ("### " ++ label ++ "\n\n" ++ body ++ "\n" ++ t)

/-- Upper-case hexadecimal digit, as produced by `urllib.parse.quote`. -/
def hexDigit (n : Nat) : Char :=
  if n < 10 then Char.ofNat (48 + n) else Char.ofNat (55 + n)

/-- Characters `urllib.parse.quote` leaves unescaped with the default
`safe="/"`: ASCII letters, digits, `_.-~` and `/`. -/
def quoteSafe (c : Char) : Bool :=
  c.isAlphanum || c = '_' || c = '.' || c = '-' || c = '~' || c = '/'

/-- `urllib.parse.quote` restricted to the ASCII strings this script quotes. -/
def urlQuote (s : String) : String :=
  String.mk (s.toList.flatMap
    (fun c => if quoteSafe c then [c] else ['%', hexDigit (c.toNat / 16), hexDigit (c.toNat % 16)]))

/-- The GitHub search URL of `create_hugo_post` (source lines 77-79). -/
def githubSearchUrl (class_name : String) : String :=
  "https://github.com/search?q=repo%3Allvm%2Fllvm-project+" ++
    urlQuote ("path:mlir \"" ++ class_name ++ "\"") ++ "&type=code"

/-- The front-matter and heading block of the report (source lines 101-112). -/
def hugoHeader (pattern_name today url : String) : String :=
  "---\ntitle: \"" ++ pattern_name ++ "\"\ndate: " ++ today ++ "\n---\n\n# `" ++
    pattern_name ++ "`\n\n[Search in LLVM Project](" ++ url ++
    ")\n\n## Operations Modified\n\n"

/-- `create_hugo_post` (source lines 71-128) with `unique_id` threaded and
the current date passed in.  Returns the written file's path and content
together with the updated counter; a `ValueError` from the grouping loop or a
`KeyError` from rendering aborts the run. -/
def create_hugo_post (pattern_name : String) (operations : List ModRecord)
    (output_dir : String) (uid : Nat) (today : String) :
    Except String ((String × String) × Nat) :=
  let fu := sanitize_filename pattern_name uid
  let filepath := postFilePath output_dir fu.1
  let url := githubSearchUrl (extract_class_name pattern_name)
  match groupByType operations [] with
  | .error e => .error e
  | .ok groups =>
    match renderSections groups with
    | .error e => .error e
    | .ok body => .ok ((filepath, hugoHeader pattern_name today url ++ body), fu.2)

/-- `generate_posts` (source lines 131-144): one report per pattern, in the
pattern dict's iteration order, threading the counter. -/
def generate_posts (patterns : List (String × List ModRecord)) (output_dir : String)
    (uid : Nat) (today : String) : Except String (List (String × String) × Nat) :=
  match patterns with
  | [] => .ok ([], uid)
  | (p, ops) :: rest =>
    match create_hugo_post p ops output_dir uid today with
    | .error e => .error e
    | .ok (post, uid') =>
      match generate_posts rest output_dir uid' today with
      | .error e => .error e
      | .ok (posts, uid'') => .ok (post :: posts, uid'')

/-- The path the search index is written to (source line 177). -/
def indexSavePath (index_output_dir index_output_filename : String) : String :=
  pathJoin index_output_dir index_output_filename

/-- The index path printed in the final summary (source line 183). -/
def summaryReportedIndexPath (output_dir index_output_filename : String) : String :=
  pathJoin output_dir index_output_filename

/-- The observable outputs of one successful `preprocess_data` run. -/
structure RunResult where
  indexPath : String
  searchIndex : List (String × List String)
  posts : List (String × String)
  summaryIndexPath : String
  summaryPagesDir : String
deriving DecidableEq, Repr

/-- `preprocess_data` (source lines 147-185): parse, build and write the
search index, generate the per-pattern reports, and record the locations the
final summary prints. -/
def preprocess_data (lines : List String) (uid : Nat) (today : String)
    (output_dir class_pages_dir index_output_dir index_output_filename : String) :
    Except String RunResult :=
  let patterns := parse_file lines
  match buildIndex patterns with
  | .error e => .error e
  | .ok idx =>
    match generate_posts patterns class_pages_dir uid today with
    | .error e => .error e
    | .ok (posts, _) =>
      .ok { indexPath := indexSavePath index_output_dir index_output_filename
            searchIndex := idx
            posts := posts
            summaryIndexPath := summaryReportedIndexPath output_dir index_output_filename
            summaryPagesDir := class_pages_dir }

/-- `preprocess_data` at the default argument values of source lines 147-152,
as invoked by the CLI entry point (source line 193). -/
def preprocess_data_default (lines : List String) (uid : Nat) (today : String) :
    Except String RunResult :=
  preprocess_data lines uid today ("search_data") ("website/content/patterns/")
    ("website/static/") ("pattern_catalog_index.json")

/-- Decode a decimal digit string back to the number it denotes; inverse of
`natDigits`, used to prove the identifier counter suffix injective. -/
def decodeDigits (l : List Char) : Nat :=
  l.foldl (fun acc c => acc * 10 + (c.toNat - 48)) 0

/-- First occurrence of each string, in order, skipping strings already in
`seen`; describes the key order of a `defaultdict` built by insertion. -/
def dedupFirstAux (seen : List String) : List String → List String
  | [] => []
  | x :: xs => if x ∈ seen then dedupFirstAux seen xs else x :: dedupFirstAux (x :: seen) xs

/-- The operation names a record contributes to the search index, following
the dispatch of `preprocess_data` lines 165-170: both `old_op` and `new_op`
for the Replaced-with-op label, the single `op` otherwise. -/
def recOps (r : ModRecord) : List String :=
  if r.type = "notifyOperationReplaced (with op)" then r.old_op.toList ++ r.new_op.toList
  else r.op.toList

/-- `v` is recorded under `key` somewhere in the index. -/
def idxHas (idx : List (String × List String)) (key v : String) : Prop :=
  ∃ vs, (key, vs) ∈ idx ∧ v ∈ vs

/-- Well-formedness of the modelled `defaultdict(set)`: keys are distinct and
every value list is duplicate-free. -/
def idxWF (idx : List (String × List String)) : Prop :=
  (idx.map Prod.fst).Nodup ∧ ∀ p ∈ idx, p.2.Nodup

/-- Modelled from the spec: the section order the spec asserts for the
report — the five bucket labels in their fixed order, restricted to the
non-empty buckets.  Stated for comparison with `groupByType`'s actual key
order. -/
def specSectionOrder (ops : List ModRecord) : List String :=
  [("Operations replaced"), ("Operations inserted"), ("Operations erased"),
   ("Operations modified"), ("Operations replaced with values")].filter
    (fun l => ops.any (fun r => bucketLabel r.type = some l))

/-- A concrete record carrying all three operation fields, used to witness
rendering facts. -/
def sampleFullRec : ModRecord :=
  { type := ("notifyOperationReplaced (with values)"), old_op := some ("B"),
    new_op := some ("C"), op := some ("A") }

/-- A concrete Inserted record, used in concrete grouping statements. -/
def sampleInsRec : ModRecord :=
  { type := ("notifyOperationInserted"), old_op := none, new_op := none, op := some ("A") }

/-- A concrete Replaced-with-op record, used in concrete grouping statements. -/
def sampleReplRec : ModRecord :=
  { type := ("notifyOperationReplaced (with op)"), old_op := some ("B"), new_op := some ("C"),
    op := none }

/-- A concrete Replaced-with-op record over `OldOp`/`NewOp`, used in concrete
index statements. -/
def sampleReplOldNewRec : ModRecord :=
  { type := ("notifyOperationReplaced (with op)"), old_op := some ("OldOp"),
    new_op := some ("NewOp"), op := none }

/-- A concrete Erased record referencing `OldOp` a second time, used in
concrete index statements. -/
def sampleErasedOldRec : ModRecord :=
  { type := ("notifyOperationErased"), old_op := none, new_op := none, op := some ("OldOp") }

theorem toNat_digitChar (d : Nat) (hd : d < 10) : (Char.ofNat (48 + d)).toNat = 48 + d := by
  interval_cases d <;> decide

theorem toLower_digitChar (d : Nat) (hd : d < 10) :
    Char.toLower (Char.ofNat (48 + d)) = Char.ofNat (48 + d) := by
  interval_cases d <;> decide

theorem decodeDigits_append (l : List Char) (c : Char) :
    decodeDigits (l ++ [c]) = decodeDigits l * 10 + (c.toNat - 48) := by
  simp [decodeDigits, List.foldl_append]

theorem decode_digitsGo (f : Nat) : ∀ n, n ≤ f → decodeDigits (digitsGo f n) = n := by
  induction f with
  | zero =>
    intro n hn
    interval_cases n
    simp [digitsGo, decodeDigits]
  | succ f ih =>
    intro n hn
    match n with
    | 0 => simp [digitsGo, decodeDigits]
    | m + 1 =>
      have hdiv : (m + 1) / 10 ≤ f := by
        have := Nat.div_lt_self (Nat.succ_pos m) (by norm_num : 1 < 10)
        omega
      have hmod : (m + 1) % 10 < 10 := Nat.mod_lt _ (by norm_num)
      rw [show digitsGo (f + 1) (m + 1) =
            digitsGo f ((m + 1) / 10) ++ [Char.ofNat (48 + (m + 1) % 10)] from rfl,
          decodeDigits_append, ih _ hdiv, toNat_digitChar _ hmod]
      omega

theorem decode_natDigits (n : Nat) : decodeDigits (natDigits n) = n := by
  by_cases h : n = 0
  · subst h; decide
  · rw [natDigits, if_neg h]
    exact decode_digitsGo n n le_rfl

theorem natDigits_inj {a b : Nat} (h : natDigits a = natDigits b) : a = b := by
  have := congrArg decodeDigits h
  rwa [decode_natDigits, decode_natDigits] at this

theorem mem_digitsGo (f : Nat) : ∀ n c, c ∈ digitsGo f n → ∃ d, d < 10 ∧ c = Char.ofNat (48 + d) := by
  induction f with
  | zero =>
    intro n c hc
    cases n <;> simp [digitsGo] at hc
  | succ f ih =>
    intro n c hc
    match n with
    | 0 => simp [digitsGo] at hc
    | m + 1 =>
      rw [show digitsGo (f + 1) (m + 1) =
            digitsGo f ((m + 1) / 10) ++ [Char.ofNat (48 + (m + 1) % 10)] from rfl] at hc
      rcases List.mem_append.mp hc with h | h
      · exact ih _ _ h
      · exact ⟨(m + 1) % 10, Nat.mod_lt _ (by norm_num), by simpa using h⟩

theorem map_fixed_of_forall {f : Char → Char} (l : List Char) (h : ∀ c ∈ l, f c = c) :
    l.map f = l := by
  induction l with
  | nil => rfl
  | cons c cs ih => simp_all

theorem map_toLower_natDigits (n : Nat) : (natDigits n).map Char.toLower = natDigits n := by
  by_cases h : n = 0
  · subst h; decide
  · rw [natDigits, if_neg h]
    apply map_fixed_of_forall
    intro c hc
    obtain ⟨d, hd, rfl⟩ := mem_digitsGo n n c hc
    exact toLower_digitChar d hd

/-- Claim C7: sanitizing the pattern name `ns::Outer<T>` strips the template
suffix and namespace prefix, sanitizes, appends the current counter value and
lower-cases, yielding `outer_<uid>` (an identifier ending in the run-counter)
and the incremented counter, while the display class name extracted for the
search link is exactly `Outer`. -/
theorem C7_sanitize_and_class_name (uid : Nat) :
    (sanitize_filename ("ns::Outer<T>") uid).1 = ("outer_") ++ String.mk (natDigits uid) ∧
    (sanitize_filename ("ns::Outer<T>") uid).2 = uid + 1 ∧
    extract_class_name ("ns::Outer<T>") = ("Outer") := by
  refine ⟨?_, rfl, by decide⟩
  show String.mk ((sanitizedBase ("ns::Outer<T>") ++ '_' :: natDigits uid).map Char.toLower) = _
  have hb : sanitizedBase ("ns::Outer<T>") = ['O', 'u', 't', 'e', 'r'] := by decide
  rw [hb]
  have hmap : (['O', 'u', 't', 'e', 'r'] ++ '_' :: natDigits uid).map Char.toLower =
      ['o', 'u', 't', 'e', 'r', '_'] ++ (natDigits uid).map Char.toLower := rfl
  rw [hmap, map_toLower_natDigits]
  rfl

theorem string_ext_data {a b : String} (h : a.data = b.data) : a = b := by
  cases a; cases b; exact congrArg String.mk h

theorem strApp_cancel_left {a b c : String} (h : a ++ b = a ++ c) : b = c := by
  have hd := congrArg String.data h
  rw [String.data_append, String.data_append] at hd
  exact string_ext_data (List.append_cancel_left hd)

theorem strApp_cancel_right {a b c : String} (h : a ++ c = b ++ c) : a = b := by
  have hd := congrArg String.data h
  rw [String.data_append, String.data_append] at hd
  exact string_ext_data (List.append_cancel_right hd)

theorem pathJoin_right_inj {d b1 b2 : String} (h : pathJoin d b1 = pathJoin d b2) : b1 = b2 := by
  unfold pathJoin at h
  split_ifs at h
  · exact h
  · exact strApp_cancel_left h
  · exact strApp_cancel_left h

theorem postFilePath_inj {d n1 n2 : String} (h : postFilePath d n1 = postFilePath d n2) :
    n1 = n2 :=
  strApp_cancel_right (pathJoin_right_inj h)

theorem sanitize_fst_inj_of_base_eq {p1 p2 : String} {uid1 uid2 : Nat}
    (hb : sanitizedBase p1 = sanitizedBase p2)
    (h : (sanitize_filename p1 uid1).1 = (sanitize_filename p2 uid2).1) : uid1 = uid2 := by
  unfold sanitize_filename at h
  simp only at h
  have hl : (sanitizedBase p1 ++ '_' :: natDigits uid1).map Char.toLower =
      (sanitizedBase p2 ++ '_' :: natDigits uid2).map Char.toLower := by injection h
  rw [hb, List.map_append, List.map_append, List.map_cons, List.map_cons,
      map_toLower_natDigits, map_toLower_natDigits] at hl
  have := List.append_cancel_left hl
  exact natDigits_inj (by injection this)

/-- Claim C8: two sanitization calls in one run always yield distinct
identifiers when the sanitized base names coincide, because the global
counter is incremented once per call; hence the two report file paths are
distinct and neither write overwrites the other. -/
theorem C8_distinct_identifiers (p1 p2 d : String) (uid : Nat)
    (hbase : sanitizedBase p1 = sanitizedBase p2) :
    (sanitize_filename p1 uid).1 ≠ (sanitize_filename p2 ((sanitize_filename p1 uid).2)).1 ∧
    postFilePath d ((sanitize_filename p1 uid).1) ≠
      postFilePath d ((sanitize_filename p2 ((sanitize_filename p1 uid).2)).1) := by
  have hne : (sanitize_filename p1 uid).1 ≠ (sanitize_filename p2 (uid + 1)).1 := fun h =>
    absurd (sanitize_fst_inj_of_base_eq hbase h) (by omega)
  exact ⟨hne, fun h => hne (postFilePath_inj h)⟩

/-- Witness for C8: two patterns both named `Foo`, starting counter 0. -/
theorem C8_distinct_identifiers_witness :
    sanitizedBase ("Foo") = sanitizedBase ("Foo") ∧
    ((sanitize_filename ("Foo") 0).1 ≠
        (sanitize_filename ("Foo") ((sanitize_filename ("Foo") 0).2)).1 ∧
     postFilePath ("website/content/patterns/") ((sanitize_filename ("Foo") 0).1) ≠
       postFilePath ("website/content/patterns/")
         ((sanitize_filename ("Foo") ((sanitize_filename ("Foo") 0).2)).1)) :=
  ⟨rfl, C8_distinct_identifiers ("Foo") ("Foo") ("website/content/patterns/") 0 rfl⟩

/-- Claim C4: the line `FooPattern | notifyOperationReplaced (with op) | OldOp | NewOp`
parses to a Replaced-with-op record with `old_op = OldOp` and `new_op = NewOp`
under pattern `FooPattern`, and the built search index maps both `OldOp` and
`NewOp` to collections containing `FooPattern`. -/
theorem C4_replaced_with_op_line :
    parse_file [("FooPattern | notifyOperationReplaced (with op) | OldOp | NewOp")] =
      [(("FooPattern"),
        [{ type := ("notifyOperationReplaced (with op)"), old_op := some ("OldOp"),
           new_op := some ("NewOp"), op := none }])] ∧
    buildIndex (parse_file [("FooPattern | notifyOperationReplaced (with op) | OldOp | NewOp")]) =
      .ok [(("OldOp"), [("FooPattern")]), (("NewOp"), [("FooPattern")])] :=
  ⟨by decide, by rfl⟩

/-- Claim C5: under the pipeline driver's default arguments the search index
is written to `website/static/pattern_catalog_index.json`, but the final
summary reports `search_data/pattern_catalog_index.json` — the printed
location is not the location written to (source lines 177 and 183 join the
filename onto different directories). -/
theorem C5_summary_path_divergence :
    indexSavePath ("website/static/") ("pattern_catalog_index.json") =
      ("website/static/pattern_catalog_index.json") ∧
    summaryReportedIndexPath ("search_data") ("pattern_catalog_index.json") =
      ("search_data/pattern_catalog_index.json") ∧
    ∃ res, preprocess_data_default [("Foo | notifyOperationInserted | A")] 0 ("2026-10-12") =
        .ok res ∧ res.indexPath ≠ res.summaryIndexPath :=
  ⟨rfl, rfl, _, rfl, by decide⟩

/-- Claim C10: in the rendered report a record in the
`Operations replaced with values` bucket is listed as its single operation
name, in the very same form as inserted, erased and modified records; only
the `Operations replaced` bucket is rendered as an old/new pair. -/
theorem C10_render_forms (r : ModRecord) (o : String) (h : r.op = some o) :
    renderLine ("Operations replaced with values") r = .ok (("- `") ++ o ++ ("`")) ∧
    renderLine ("Operations replaced with values") r = renderLine ("Operations inserted") r ∧
    renderLine ("Operations replaced with values") r = renderLine ("Operations erased") r ∧
    renderLine ("Operations replaced with values") r = renderLine ("Operations modified") r ∧
    ∀ oo no, r.old_op = some oo → r.new_op = some no →
      renderLine ("Operations replaced") r = .ok (("- `") ++ oo ++ ("` → `") ++ no ++ ("`")) := by
  refine ⟨?_, ?_, ?_, ?_, ?_⟩
  · simp [renderLine, h]
  · simp [renderLine]
  · simp [renderLine]
  · simp [renderLine]
  · intro oo no h1 h2
    simp [renderLine, h1, h2]

/-- Witness for C10 at a concrete record carrying all three fields. -/
theorem C10_render_forms_witness :
    renderLine ("Operations replaced with values") sampleFullRec =
      .ok (("- `") ++ ("A") ++ ("`")) ∧
    renderLine ("Operations replaced with values") sampleFullRec =
      renderLine ("Operations inserted") sampleFullRec ∧
    renderLine ("Operations replaced with values") sampleFullRec =
      renderLine ("Operations erased") sampleFullRec ∧
    renderLine ("Operations replaced with values") sampleFullRec =
      renderLine ("Operations modified") sampleFullRec ∧
    ∀ oo no, sampleFullRec.old_op = some oo → sampleFullRec.new_op = some no →
      renderLine ("Operations replaced") sampleFullRec =
        .ok (("- `") ++ oo ++ ("` → `") ++ no ++ ("`")) :=
  C10_render_forms sampleFullRec ("A") rfl

/-- Counterexample to claim C1 as stated: for the three-field line
`Foo | notifyOperationReplaced (with op) | A` the parser does build the
record from field 2 alone, but the index build then fails with a `KeyError`
instead of completing. -/
theorem C1_counterexample :
    parse_file [("Foo | notifyOperationReplaced (with op) | A")] =
      [(("Foo"), [{ type := ("notifyOperationReplaced (with op)"), old_op := none,
                    new_op := none, op := some ("A") }])] ∧
    buildIndex (parse_file [("Foo | notifyOperationReplaced (with op) | A")]) =
      .error ("KeyError: old_op") :=
  ⟨by decide, by rfl⟩

/-- Claim C1 (amended): for every input line whose second field is the
literal `notifyOperationReplaced (with op)` but which does not have exactly 4
fields (while having at least 3), the parser builds a record from field 2
alone tagged with that label; the search-index builder, however, dispatches
on the label and reads the absent `old_op`/`new_op` keys, so the index build
fails with a `KeyError` for such input instead of inserting the pattern name
under the record's single operation key. -/
theorem C1_mislabelled_record_fails_index (line : String)
    (h2 : String.mk ((splitBar (stripList line.toList) []).getD 1 []) =
      ("notifyOperationReplaced (with op)"))
    (h3 : 3 ≤ (splitBar (stripList line.toList) []).length)
    (h4 : (splitBar (stripList line.toList) []).length ≠ 4) :
    ∃ p, parseLine line =
        some (p, { type := ("notifyOperationReplaced (with op)"), old_op := none, new_op := none,
                   op := some (String.mk ((splitBar (stripList line.toList) []).getD 2 [])) }) ∧
      buildIndex [(p, [{ type := ("notifyOperationReplaced (with op)"), old_op := none,
                         new_op := none,
                         op := some (String.mk
                           ((splitBar (stripList line.toList) []).getD 2 [])) }])] =
        .error ("KeyError: old_op") := by
  have hl : stripList line.toList ≠ [] := by
    intro he
    rw [he] at h3
    simp [splitBar] at h3
  refine ⟨if stripList ((splitBar (stripList line.toList) []).getD 0 []) ≠ [] then
      String.mk ((splitBar (stripList line.toList) []).getD 0 []) else ("unknown"), ?_, rfl⟩
  simp only [parseLine]
  rw [if_neg hl, if_neg (by omega : ¬ (splitBar (stripList line.toList) []).length < 3), h2,
    if_neg (fun hc => h4 hc.2)]

/-- Witness for the amended C1 at the concrete three-field line. -/
theorem C1_mislabelled_record_fails_index_witness :
    ∃ p, parseLine ("Foo | notifyOperationReplaced (with op) | A") =
        some (p, { type := ("notifyOperationReplaced (with op)"), old_op := none, new_op := none,
                   op := some (String.mk ((splitBar (stripList
                     ("Foo | notifyOperationReplaced (with op) | A").toList) []).getD 2 [])) }) ∧
      buildIndex [(p, [{ type := ("notifyOperationReplaced (with op)"), old_op := none,
                         new_op := none,
                         op := some (String.mk ((splitBar (stripList
                           ("Foo | notifyOperationReplaced (with op) | A").toList) []).getD
                             2 [])) }])] =
        .error ("KeyError: old_op") :=
  C1_mislabelled_record_fails_index ("Foo | notifyOperationReplaced (with op) | A")
    (by decide) (by decide) (by decide)

theorem map_fst_addRecord {α : Type} (acc : List (String × List α)) (k : String) (x : α) :
    (addRecord acc k x).map Prod.fst =
      if k ∈ acc.map Prod.fst then acc.map Prod.fst else acc.map Prod.fst ++ [k] := by
  induction acc with
  | nil => simp [addRecord]
  | cons q rest ih =>
    obtain ⟨k', xs⟩ := q
    by_cases hk : k' = k
    · subst hk
      simp [addRecord]
    · rw [show addRecord ((k', xs) :: rest) k x = (k', xs) :: addRecord rest k x by
        simp [addRecord, hk]]
      by_cases hm : k ∈ rest.map Prod.fst
      · simp [ih, hm, Ne.symm hk]
      · simp [ih, hm, Ne.symm hk]

theorem dedupFirstAux_congr {s t : List String} (h : ∀ a, a ∈ s ↔ a ∈ t) :
    ∀ xs, dedupFirstAux s xs = dedupFirstAux t xs := by
  intro xs
  induction xs generalizing s t with
  | nil => rfl
  | cons x xs ih =>
    by_cases hx : x ∈ s
    · rw [dedupFirstAux, dedupFirstAux, if_pos hx, if_pos ((h x).mp hx)]
      exact ih h
    · rw [dedupFirstAux, dedupFirstAux, if_neg hx, if_neg (fun hxt => hx ((h x).mpr hxt))]
      refine congrArg _ (ih ?_)
      intro a
      simp [h a]

theorem groupByType_keys (ops : List ModRecord) :
    ∀ acc gs, groupByType ops acc = .ok gs →
      gs.map Prod.fst = acc.map Prod.fst ++
        dedupFirstAux (acc.map Prod.fst) (ops.filterMap (fun r => bucketLabel r.type)) := by
  induction ops with
  | nil =>
    intro acc gs h
    injection h with h
    subst h
    simp [dedupFirstAux]
  | cons r rs ih =>
    intro acc gs h
    cases hb : bucketLabel r.type with
    | none =>
      rw [groupByType, hb] at h
      cases h
    | some l =>
      rw [groupByType, hb] at h
      have hrec := ih (addRecord acc l r) gs h
      rw [show List.filterMap (fun r => bucketLabel r.type) (r :: rs) =
            l :: List.filterMap (fun r => bucketLabel r.type) rs by
          simp [List.filterMap_cons, hb]]
      rw [hrec, map_fst_addRecord]
      by_cases hm : l ∈ acc.map Prod.fst
      · rw [if_pos hm, dedupFirstAux, if_pos hm]
      · rw [if_neg hm, dedupFirstAux, if_neg hm,
          dedupFirstAux_congr (s := acc.map Prod.fst ++ [l]) (t := l :: acc.map Prod.fst)
            (by intro a; simp [or_comm])]
        simp

/-- Counterexample to claim C3 as stated: a pattern whose records arrive as
an Inserted record followed by a Replaced record is rendered with the
`Operations inserted` section first, because the grouping dict preserves
first-seen insertion order; the fixed bucket-label order the claim asserts
would put `Operations replaced` first. -/
theorem C3_counterexample :
    (groupByType [sampleInsRec, sampleReplRec] []).map (List.map Prod.fst) =
      .ok [("Operations inserted"), ("Operations replaced")] ∧
    specSectionOrder [sampleInsRec, sampleReplRec] =
      [("Operations replaced"), ("Operations inserted")] ∧
    ([("Operations inserted"), ("Operations replaced")] : List String) ≠
      [("Operations replaced"), ("Operations inserted")] :=
  ⟨rfl, rfl, by decide⟩

/-- Claim C3 (amended): the rendered report lists its non-empty buckets as
sections in the order in which each bucket label first occurs among the
pattern's records (the insertion order of the grouping dict), not in a fixed
bucket-label order. -/
theorem C3_sections_in_first_seen_order (ops : List ModRecord)
    (gs : List (String × List ModRecord)) (h : groupByType ops [] = .ok gs) :
    gs.map Prod.fst = dedupFirstAux [] (ops.filterMap (fun r => bucketLabel r.type)) := by
  have := groupByType_keys ops [] gs h
  simpa using this

/-- Witness for the amended C3 at a concrete record list. -/
theorem C3_sections_in_first_seen_order_witness :
    ([(("Operations inserted"), [sampleInsRec]), (("Operations replaced"), [sampleReplRec])].map
        Prod.fst : List String) =
      dedupFirstAux []
        ([sampleInsRec, sampleReplRec].filterMap (fun r => bucketLabel r.type)) :=
  C3_sections_in_first_seen_order [sampleInsRec, sampleReplRec]
    [(("Operations inserted"), [sampleInsRec]), (("Operations replaced"), [sampleReplRec])]
    (by rfl)

theorem groupByType_error_of_bad (ops : List ModRecord) :
    ∀ acc, (∃ r ∈ ops, bucketLabel r.type = none) →
      ∃ msg, groupByType ops acc = .error msg := by
  induction ops with
  | nil =>
    intro acc h
    simp at h
  | cons r rs ih =>
    intro acc h
    obtain ⟨r', hr', hbad⟩ := h
    cases hb : bucketLabel r.type with
    | none => exact ⟨_, by rw [groupByType, hb]⟩
    | some l =>
      rcases List.mem_cons.mp hr' with rfl | hmem
      · rw [hb] at hbad
        cases hbad
      · obtain ⟨msg, hmsg⟩ := ih (addRecord acc l r) ⟨r', hmem, hbad⟩
        exact ⟨msg, by rw [groupByType, hb]; exact hmsg⟩

theorem create_hugo_post_error_of_bad (p : String) (ops : List ModRecord) (d : String)
    (uid : Nat) (today : String) (h : ∃ r ∈ ops, bucketLabel r.type = none) :
    ∃ msg, create_hugo_post p ops d uid today = .error msg := by
  obtain ⟨msg, hmsg⟩ := groupByType_error_of_bad ops [] h
  exact ⟨msg, by unfold create_hugo_post; rw [hmsg]⟩

theorem generate_posts_error_of_bad (patterns : List (String × List ModRecord)) (d : String)
    (today : String) :
    ∀ uid, (∃ pr ∈ patterns, ∃ r ∈ pr.2, bucketLabel r.type = none) →
      ∃ msg, generate_posts patterns d uid today = .error msg := by
  induction patterns with
  | nil =>
    intro uid h
    simp at h
  | cons pr rest ih =>
    intro uid h
    obtain ⟨p0, ops0⟩ := pr
    cases hc : create_hugo_post p0 ops0 d uid today with
    | error e => exact ⟨e, by rw [generate_posts, hc]⟩
    | ok val =>
      obtain ⟨pr', hpr', r', hr', hbad⟩ := h
      rcases List.mem_cons.mp hpr' with rfl | hmem
      · obtain ⟨m, hm⟩ := create_hugo_post_error_of_bad p0 ops0 d uid today ⟨r', hr', hbad⟩
        rw [hm] at hc
        cases hc
      · obtain ⟨m2, hm2⟩ := ih val.2 ⟨pr', hmem, r', hr', hbad⟩
        refine ⟨m2, ?_⟩
        rw [generate_posts, hc]
        simp [hm2]

/-- Claim C6: whenever any parsed record carries a modification-type label
outside the five recognized strings, the whole pipeline run aborts with an
error during report generation; the record is never silently skipped. -/
theorem C6_unknown_label_aborts (lines : List String) (uid : Nat)
    (today od cpd iod iof : String)
    (h : ∃ pr ∈ parse_file lines, ∃ r ∈ pr.2, bucketLabel r.type = none) :
    ∃ msg, preprocess_data lines uid today od cpd iod iof = .error msg := by
  simp only [preprocess_data]
  cases hb : buildIndex (parse_file lines) with
  | error e => exact ⟨e, rfl⟩
  | ok idx =>
    obtain ⟨m, hm⟩ := generate_posts_error_of_bad (parse_file lines) cpd today uid h
    exact ⟨m, by rw [hm]⟩

/-- Witness for C6: the line `Foo | weird | X` carries the unrecognized label
`weird` and makes the default run abort. -/
theorem C6_unknown_label_aborts_witness :
    ∃ msg, preprocess_data [("Foo | weird | X")] 0 ("2026-10-12") ("search_data")
        ("website/content/patterns/") ("website/static/") ("pattern_catalog_index.json") =
      .error msg :=
  C6_unknown_label_aborts [("Foo | weird | X")] 0 ("2026-10-12") ("search_data")
    ("website/content/patterns/") ("website/static/") ("pattern_catalog_index.json") (by decide)

theorem dropWhile_ne_nil_of_mem {l : List Char} {c : Char} (hm : c ∈ l)
    (hc : pyIsSpace c = false) : l.dropWhile pyIsSpace ≠ [] := by
  induction l with
  | nil => cases hm
  | cons x xs ih =>
    rw [List.dropWhile_cons]
    by_cases hx : pyIsSpace x = true
    · rw [if_pos hx]
      apply ih
      rcases List.mem_cons.mp hm with rfl | h
      · rw [hx] at hc; cases hc
      · exact h
    · rw [if_neg hx]
      simp

theorem dropWhile_append_single (xs : List Char) (c : Char) (hc : pyIsSpace c = false) :
    (xs ++ [c]).dropWhile pyIsSpace = xs.dropWhile pyIsSpace ++ [c] := by
  induction xs with
  | nil => simp [List.dropWhile_cons, hc]
  | cons x xs ih =>
    rw [List.cons_append, List.dropWhile_cons, List.dropWhile_cons]
    by_cases hx : pyIsSpace x = true
    · rw [if_pos hx, if_pos hx, ih]
    · rw [if_neg hx, if_neg hx, List.cons_append]

theorem dropWhile_head_false {l : List Char} {c : Char} {t : List Char}
    (h : l.dropWhile pyIsSpace = c :: t) : pyIsSpace c = false := by
  induction l with
  | nil => cases h
  | cons x xs ih =>
    rw [List.dropWhile_cons] at h
    by_cases hx : pyIsSpace x = true
    · rw [if_pos hx] at h
      exact ih h
    · rw [if_neg hx] at h
      injection h with h1 h2
      subst h1
      exact Bool.not_eq_true _ ▸ Bool.of_not_eq_true hx

theorem stripList_head (l : List Char) (h : stripList l ≠ []) :
    ∃ c t, stripList l = c :: t ∧ pyIsSpace c = false := by
  unfold stripList at h ⊢
  cases hd : l.dropWhile pyIsSpace with
  | nil => rw [hd] at h; simp at h
  | cons c t =>
    have hc : pyIsSpace c = false := dropWhile_head_false hd
    refine ⟨c, (List.dropWhile pyIsSpace t.reverse).reverse, ?_, hc⟩
    rw [List.reverse_cons, dropWhile_append_single _ _ hc, List.reverse_append]
    rfl

theorem stripList_cons_ne_nil (c : Char) (t : List Char) (hc : pyIsSpace c = false) :
    stripList (c :: t) ≠ [] := by
  unfold stripList
  rw [show (c :: t).dropWhile pyIsSpace = c :: t by rw [List.dropWhile_cons, if_neg (by simp [hc])]]
  intro h
  rw [List.reverse_eq_nil_iff] at h
  exact dropWhile_ne_nil_of_mem (List.mem_reverse.mpr (List.mem_cons_self c t)) hc h

theorem splitBar_acc_head (s cur : List Char) :
    ∃ t rest, splitBar s cur = (cur ++ t) :: rest := by
  induction s, cur using splitBar.induct with
  | case1 cur => exact ⟨[], [], by simp [splitBar]⟩
  | case2 c cur => exact ⟨[c], [], by simp [splitBar]⟩
  | case3 c1 c2 cur => exact ⟨[c1, c2], [], by simp [splitBar]⟩
  | case4 c1 c2 c3 rest cur hsep ih =>
    exact ⟨[], splitBar rest [], by simp [splitBar, hsep]⟩
  | case5 c1 c2 c3 rest cur hsep ih =>
    obtain ⟨t, r, hr⟩ := ih
    refine ⟨c1 :: t, r, ?_⟩
    rw [show splitBar (c1 :: c2 :: c3 :: rest) cur = splitBar (c2 :: c3 :: rest) (cur ++ [c1]) by
      simp [splitBar, hsep]]
    rw [hr]
    simp

theorem splitBar_head_cons (c : Char) (cs : List Char) (hc : pyIsSpace c = false) :
    ∃ t rest, splitBar (c :: cs) [] = (c :: t) :: rest := by
  have hcsp : ¬(c = ' ' ∧ True) := fun he => by
    rw [he.1] at hc
    cases hc
  match cs with
  | [] => exact ⟨[], [], rfl⟩
  | [c2] => exact ⟨[c2], [], rfl⟩
  | c2 :: c3 :: rest =>
    rw [show splitBar (c :: c2 :: c3 :: rest) [] = splitBar (c2 :: c3 :: rest) ([] ++ [c]) by
      simp [splitBar]
      intro h1
      exact absurd ⟨h1, trivial⟩ hcsp]
    obtain ⟨t, r, hsp⟩ := splitBar_acc_head (c2 :: c3 :: rest) [c]
    exact ⟨t, r, by simpa using hsp⟩

theorem parseLine_key (line : String) (p : String) (r : ModRecord)
    (h : parseLine line = some (p, r)) :
    p = String.mk ((splitBar (stripList line.toList) []).getD 0 []) ∧
    stripList p.toList ≠ [] := by
  simp only [parseLine] at h
  by_cases hl : stripList line.toList = []
  · rw [if_pos hl] at h
    cases h
  · rw [if_neg hl] at h
    by_cases hlen : (splitBar (stripList line.toList) []).length < 3
    · rw [if_pos hlen] at h
      cases h
    · rw [if_neg hlen] at h
      obtain ⟨c, t, hst, hc⟩ := stripList_head _ hl
      obtain ⟨t2, rest, hsb⟩ := splitBar_head_cons c t hc
      have hne : stripList ((splitBar (stripList line.toList) []).getD 0 []) ≠ [] := by
        rw [hst, hsb]
        exact stripList_cons_ne_nil c t2 hc
      rw [if_pos hne] at h
      have hp : p = String.mk ((splitBar (stripList line.toList) []).getD 0 []) := by
        split at h <;> (injection h with h'; exact (congrArg Prod.fst h').symm)
      refine ⟨hp, ?_⟩
      rw [hp]
      exact hne

theorem mem_addRecord {α : Type} (acc : List (String × List α)) (k : String) (x : α)
    (p : String) (rs : List α) (h : (p, rs) ∈ addRecord acc k x) :
    (∃ rs', (p, rs') ∈ acc) ∨ p = k := by
  induction acc with
  | nil =>
    simp [addRecord] at h
    exact .inr h.1
  | cons q rest ih =>
    obtain ⟨k', xs⟩ := q
    by_cases hk : k' = k
    · subst hk
      rw [show addRecord ((k', xs) :: rest) k' x = (k', xs ++ [x]) :: rest by
        simp [addRecord]] at h
      rcases List.mem_cons.mp h with heq | hmem
      · exact .inr (congrArg Prod.fst heq)
      · exact .inl ⟨rs, List.mem_cons_of_mem _ hmem⟩
    · rw [show addRecord ((k', xs) :: rest) k x = (k', xs) :: addRecord rest k x by
        simp [addRecord, hk]] at h
      rcases List.mem_cons.mp h with heq | hmem
      · exact .inl ⟨rs, by rw [heq]; exact List.mem_cons_self _ _⟩
      · rcases ih hmem with ⟨rs', hmem'⟩ | hpk
        · exact .inl ⟨rs', List.mem_cons_of_mem _ hmem'⟩
        · exact .inr hpk

theorem parse_file_key_mem (lines : List String) :
    ∀ acc p rs, (p, rs) ∈ lines.foldl
        (fun acc line =>
          match parseLine line with
          | none => acc
          | some (q, r) => addRecord acc q r) acc →
      (∃ rs', (p, rs') ∈ acc) ∨ ∃ line ∈ lines, ∃ r, parseLine line = some (p, r) := by
  induction lines with
  | nil =>
    intro acc p rs h
    exact .inl ⟨rs, h⟩
  | cons line rest ih =>
    intro acc p rs h
    rw [List.foldl_cons] at h
    rcases ih _ p rs h with hacc | ⟨l', hl', r', hr'⟩
    · obtain ⟨rs', hmem⟩ := hacc
      cases hp : parseLine line with
      | none =>
        rw [hp] at hmem
        exact .inl ⟨rs', hmem⟩
      | some qr =>
        obtain ⟨q, r0⟩ := qr
        rw [hp] at hmem
        rcases mem_addRecord acc q r0 p rs' hmem with hacc2 | rfl
        · exact .inl hacc2
        · exact .inr ⟨line, List.mem_cons_self _ _, r0, hp⟩
    · exact .inr ⟨l', List.mem_cons_of_mem _ hl', r', hr'⟩

/-- Claim C9: because each line is stripped before splitting, the first field
of any parsed line starts with a non-whitespace character, so the `unknown`
substitution is unreachable: every pattern key produced by the parser is the
verbatim first field of some input line, and that field does not strip to
the empty string. -/
theorem C9_pattern_keys_verbatim (lines : List String) (p : String) (rs : List ModRecord)
    (h : (p, rs) ∈ parse_file lines) :
    ∃ line ∈ lines, ∃ r, parseLine line = some (p, r) ∧
      p = String.mk ((splitBar (stripList line.toList) []).getD 0 []) ∧
      stripList p.toList ≠ [] := by
  rcases parse_file_key_mem lines [] p rs h with ⟨rs', hmem⟩ | ⟨line, hline, r, hr⟩
  · cases hmem
  · obtain ⟨h1, h2⟩ := parseLine_key line p r hr
    exact ⟨line, hline, r, hr, h1, h2⟩

/-- Witness for C9 at the concrete line `A | B | C`. -/
theorem C9_pattern_keys_verbatim_witness :
    ∃ line ∈ [("A | B | C")], ∃ r, parseLine line = some (("A"), r) ∧
      ("A") = String.mk ((splitBar (stripList line.toList) []).getD 0 []) ∧
      stripList ("A").toList ≠ [] :=
  C9_pattern_keys_verbatim [("A | B | C")] ("A")
    [{ type := ("B"), old_op := none, new_op := none, op := some ("C") }] (by decide)

theorem map_fst_setAdd (idx : List (String × List String)) (k v : String) :
    (setAdd idx k v).map Prod.fst =
      if k ∈ idx.map Prod.fst then idx.map Prod.fst else idx.map Prod.fst ++ [k] := by
  induction idx with
  | nil => simp [setAdd]
  | cons q rest ih =>
    obtain ⟨k', vs⟩ := q
    by_cases hk : k' = k
    · subst hk
      simp [setAdd]
    · rw [show setAdd ((k', vs) :: rest) k v = (k', vs) :: setAdd rest k v by
        simp [setAdd, hk]]
      by_cases hm : k ∈ rest.map Prod.fst
      · simp [ih, hm, Ne.symm hk]
      · simp [ih, hm, Ne.symm hk]

theorem setAdd_wf {idx : List (String × List String)} (h : idxWF idx) (k v : String) :
    idxWF (setAdd idx k v) := by
  obtain ⟨hkeys, hvals⟩ := h
  constructor
  · rw [map_fst_setAdd]
    by_cases hm : k ∈ idx.map Prod.fst
    · rw [if_pos hm]; exact hkeys
    · rw [if_neg hm]
      simp [List.nodup_append, hkeys, hm]
  · induction idx with
    | nil =>
      intro p hp
      simp [setAdd] at hp
      subst hp
      simp
    | cons q rest ih =>
      obtain ⟨k', vs⟩ := q
      by_cases hk : k' = k
      · subst hk
        rw [show setAdd ((k', vs) :: rest) k' v =
            (k', if v ∈ vs then vs else vs ++ [v]) :: rest by simp [setAdd]]
        intro p hp
        rcases List.mem_cons.mp hp with rfl | hmem
        · have hnd : vs.Nodup := hvals (k', vs) (List.mem_cons_self _ _)
          by_cases hv : v ∈ vs
          · simpa [hv] using hnd
          · simp only [hv, if_neg]
            simp [List.nodup_append, hnd, hv]
        · exact hvals p (List.mem_cons_of_mem _ hmem)
      · rw [show setAdd ((k', vs) :: rest) k v = (k', vs) :: setAdd rest k v by
          simp [setAdd, hk]]
        intro p hp
        rcases List.mem_cons.mp hp with rfl | hmem
        · exact hvals (k', vs) (List.mem_cons_self _ _)
        · exact ih (List.Nodup.of_cons hkeys) (fun q hq => hvals q (List.mem_cons_of_mem _ hq))
            p hmem

theorem setAdd_has_self (idx : List (String × List String)) (k v : String) :
    idxHas (setAdd idx k v) k v := by
  induction idx with
  | nil => exact ⟨[v], by simp [setAdd], by simp⟩
  | cons q rest ih =>
    obtain ⟨k', vs⟩ := q
    by_cases hk : k' = k
    · subst hk
      refine ⟨if v ∈ vs then vs else vs ++ [v], by simp [setAdd], ?_⟩
      by_cases hv : v ∈ vs
      · simp [hv]
      · simp [hv]
    · obtain ⟨vs', hmem, hv⟩ := ih
      refine ⟨vs', ?_, hv⟩
      rw [show setAdd ((k', vs) :: rest) k v = (k', vs) :: setAdd rest k v by
        simp [setAdd, hk]]
      exact List.mem_cons_of_mem _ hmem

theorem setAdd_preserves {idx : List (String × List String)} {k' v' : String}
    (h : idxHas idx k' v') (k v : String) : idxHas (setAdd idx k v) k' v' := by
  obtain ⟨vs, hmem, hv⟩ := h
  induction idx with
  | nil => cases hmem
  | cons q rest ih =>
    obtain ⟨k0, vs0⟩ := q
    by_cases hk : k0 = k
    · subst hk
      rw [show setAdd ((k0, vs0) :: rest) k0 v =
          (k0, if v ∈ vs0 then vs0 else vs0 ++ [v]) :: rest by simp [setAdd]]
      rcases List.mem_cons.mp hmem with heq | hmem2
      · injection heq with h1 h2
        subst h1
        subst h2
        refine ⟨if v ∈ vs then vs else vs ++ [v], List.mem_cons_self _ _, ?_⟩
        by_cases hvv : v ∈ vs
        · simpa [hvv] using hv
        · simp [hvv, List.mem_append, hv]
      · exact ⟨vs, List.mem_cons_of_mem _ hmem2, hv⟩
    · rw [show setAdd ((k0, vs0) :: rest) k v = (k0, vs0) :: setAdd rest k v by
        simp [setAdd, hk]]
      rcases List.mem_cons.mp hmem with heq | hmem2
      · exact ⟨vs, by rw [heq]; exact List.mem_cons_self _ _, hv⟩
      · obtain ⟨vs2, hm2, hv2⟩ := ih hmem2
        exact ⟨vs2, List.mem_cons_of_mem _ hm2, hv2⟩

theorem idxHas_count_one {idx : List (String × List String)} {k v : String}
    (hwf : idxWF idx) (h : idxHas idx k v) :
    ∃ vs, (k, vs) ∈ idx ∧ vs.count v = 1 := by
  obtain ⟨vs, hmem, hv⟩ := h
  exact ⟨vs, hmem, List.count_eq_one_of_mem (hwf.2 (k, vs) hmem) hv⟩

theorem indexRecord_ok_cases {idx : List (String × List String)} {pname : String}
    {r : ModRecord} {idx' : List (String × List String)}
    (h : indexRecord idx pname r = .ok idx') :
    (∃ o n, r.type = ("notifyOperationReplaced (with op)") ∧ r.old_op = some o ∧
      r.new_op = some n ∧ idx' = setAdd (setAdd idx o pname) n pname) ∨
    (∃ o, r.type ≠ ("notifyOperationReplaced (with op)") ∧ r.op = some o ∧
      idx' = setAdd idx o pname) := by
  unfold indexRecord at h
  by_cases ht : r.type = ("notifyOperationReplaced (with op)")
  · rw [if_pos ht] at h
    cases ho : r.old_op with
    | none => rw [ho] at h; exact (Except.noConfusion h)
    | some o =>
      rw [ho] at h
      cases hn : r.new_op with
      | none => rw [hn] at h; exact (Except.noConfusion h)
      | some n =>
        rw [hn] at h
        injection h with h'
        exact .inl ⟨o, n, ht, rfl, rfl, h'.symm⟩
  · rw [if_neg ht] at h
    cases hop : r.op with
    | none => rw [hop] at h; exact (Except.noConfusion h)
    | some o =>
      rw [hop] at h
      injection h with h'
      exact .inr ⟨o, ht, rfl, h'.symm⟩

theorem indexRecord_wf {idx : List (String × List String)} {pname : String} {r : ModRecord}
    {idx' : List (String × List String)} (h : indexRecord idx pname r = .ok idx')
    (hwf : idxWF idx) : idxWF idx' := by
  rcases indexRecord_ok_cases h with ⟨o, n, _, _, _, rfl⟩ | ⟨o, _, _, rfl⟩
  · exact setAdd_wf (setAdd_wf hwf o pname) n pname
  · exact setAdd_wf hwf o pname

theorem indexRecord_preserves {idx : List (String × List String)} {pname : String}
    {r : ModRecord} {idx' : List (String × List String)}
    (h : indexRecord idx pname r = .ok idx') {k v : String}
    (hh : idxHas idx k v) : idxHas idx' k v := by
  rcases indexRecord_ok_cases h with ⟨o, n, _, _, _, rfl⟩ | ⟨o, _, _, rfl⟩
  · exact setAdd_preserves (setAdd_preserves hh o pname) n pname
  · exact setAdd_preserves hh o pname

theorem indexRecord_self {idx : List (String × List String)} {pname : String}
    {r : ModRecord} {idx' : List (String × List String)}
    (h : indexRecord idx pname r = .ok idx') :
    ∀ o ∈ recOps r, idxHas idx' o pname := by
  intro o' ho'
  rcases indexRecord_ok_cases h with ⟨o, n, ht, ho, hn, rfl⟩ | ⟨o, ht, hop, rfl⟩
  · rw [recOps, if_pos ht, ho, hn] at ho'
    simp at ho'
    rcases ho' with rfl | rfl
    · exact setAdd_preserves (setAdd_has_self idx o' pname) n pname
    · exact setAdd_has_self _ o' pname
  · rw [recOps, if_neg ht, hop] at ho'
    simp at ho'
    subst ho'
    exact setAdd_has_self idx o' pname

theorem indexMods_preserves (pname : String) (rs : List ModRecord) :
    ∀ idx idx', indexMods pname rs idx = .ok idx' →
      ∀ {k v : String}, idxHas idx k v → idxHas idx' k v := by
  induction rs with
  | nil =>
    intro idx idx' h k v hh
    injection h with h'
    exact h' ▸ hh
  | cons r rs ih =>
    intro idx idx' h k v hh
    simp only [indexMods] at h
    cases hr : indexRecord idx pname r with
    | error e => rw [hr] at h; exact (Except.noConfusion h)
    | ok idx0 =>
      rw [hr] at h
      exact ih idx0 idx' h (indexRecord_preserves hr hh)

theorem indexMods_wf (pname : String) (rs : List ModRecord) :
    ∀ idx idx', indexMods pname rs idx = .ok idx' → idxWF idx → idxWF idx' := by
  induction rs with
  | nil =>
    intro idx idx' h hwf
    injection h with h'
    exact h' ▸ hwf
  | cons r rs ih =>
    intro idx idx' h hwf
    simp only [indexMods] at h
    cases hr : indexRecord idx pname r with
    | error e => rw [hr] at h; exact (Except.noConfusion h)
    | ok idx0 =>
      rw [hr] at h
      exact ih idx0 idx' h (indexRecord_wf hr hwf)

theorem indexMods_self (pname : String) (rs : List ModRecord) :
    ∀ idx idx', indexMods pname rs idx = .ok idx' →
      ∀ r ∈ rs, ∀ o ∈ recOps r, idxHas idx' o pname := by
  induction rs with
  | nil =>
    intro idx idx' _ r hr
    cases hr
  | cons r0 rs ih =>
    intro idx idx' h r hr o ho
    simp only [indexMods] at h
    cases hrec : indexRecord idx pname r0 with
    | error e => rw [hrec] at h; exact (Except.noConfusion h)
    | ok idx0 =>
      rw [hrec] at h
      rcases List.mem_cons.mp hr with rfl | hmem
      · exact indexMods_preserves pname rs idx0 idx' h (indexRecord_self hrec o ho)
      · exact ih idx0 idx' h r hmem o ho

theorem indexPatterns_preserves (ps : List (String × List ModRecord)) :
    ∀ idx idx', indexPatterns ps idx = .ok idx' →
      ∀ {k v : String}, idxHas idx k v → idxHas idx' k v := by
  induction ps with
  | nil =>
    intro idx idx' h k v hh
    injection h with h'
    exact h' ▸ hh
  | cons pr ps ih =>
    intro idx idx' h k v hh
    obtain ⟨p0, rs0⟩ := pr
    simp only [indexPatterns] at h
    cases hm : indexMods p0 rs0 idx with
    | error e => rw [hm] at h; exact (Except.noConfusion h)
    | ok idx0 =>
      rw [hm] at h
      exact ih idx0 idx' h (indexMods_preserves p0 rs0 idx idx0 hm hh)

theorem indexPatterns_wf (ps : List (String × List ModRecord)) :
    ∀ idx idx', indexPatterns ps idx = .ok idx' → idxWF idx → idxWF idx' := by
  induction ps with
  | nil =>
    intro idx idx' h hwf
    injection h with h'
    exact h' ▸ hwf
  | cons pr ps ih =>
    intro idx idx' h hwf
    obtain ⟨p0, rs0⟩ := pr
    simp only [indexPatterns] at h
    cases hm : indexMods p0 rs0 idx with
    | error e => rw [hm] at h; exact (Except.noConfusion h)
    | ok idx0 =>
      rw [hm] at h
      exact ih idx0 idx' h (indexMods_wf p0 rs0 idx idx0 hm hwf)

theorem indexPatterns_self (ps : List (String × List ModRecord)) :
    ∀ idx idx', indexPatterns ps idx = .ok idx' →
      ∀ p rs, (p, rs) ∈ ps → ∀ r ∈ rs, ∀ o ∈ recOps r, idxHas idx' o p := by
  induction ps with
  | nil =>
    intro idx idx' _ p rs hpr
    cases hpr
  | cons pr ps ih =>
    intro idx idx' h p rs hpr r hr o ho
    obtain ⟨p0, rs0⟩ := pr
    simp only [indexPatterns] at h
    cases hm : indexMods p0 rs0 idx with
    | error e => rw [hm] at h; exact (Except.noConfusion h)
    | ok idx0 =>
      rw [hm] at h
      rcases List.mem_cons.mp hpr with heq | hmem
      · injection heq with h1 h2
        subst h1
        subst h2
        exact indexPatterns_preserves ps idx0 idx' h
          (indexMods_self p rs idx idx0 hm r hr o ho)
      · exact ih idx0 idx' h p rs hmem r hr o ho

/-- Claim C2: whenever the search-index build succeeds, every operation name
appearing in any record (both `old_op` and `new_op` for Replaced-with-op
records, the single `op` otherwise) is a key of the index, and the
collection under that key contains each referencing pattern name exactly
once, however many of that pattern's records reference the operation. -/
theorem C2_index_complete_and_deduplicated (patterns : List (String × List ModRecord))
    (idx : List (String × List String)) (h : buildIndex patterns = .ok idx) :
    ∀ p rs, (p, rs) ∈ patterns → ∀ r ∈ rs, ∀ o ∈ recOps r,
      ∃ vs, (o, vs) ∈ idx ∧ vs.count p = 1 := by
  intro p rs hpr r hr o ho
  have hwf0 : idxWF ([] : List (String × List String)) := ⟨List.nodup_nil, by simp⟩
  have hwf : idxWF idx := indexPatterns_wf patterns [] idx h hwf0
  have hhas : idxHas idx o p := indexPatterns_self patterns [] idx h p rs hpr r hr o ho
  exact idxHas_count_one hwf hhas

/-- Witness for C2: a pattern with two records referencing `OldOp` twice
still lists `FooPattern` exactly once under the key `OldOp`. -/
theorem C2_index_complete_and_deduplicated_witness :
    ∃ vs, (("OldOp"), vs) ∈ [(("OldOp"), [("FooPattern")]), (("NewOp"), [("FooPattern")])] ∧
      vs.count ("FooPattern") = 1 :=
  C2_index_complete_and_deduplicated
    [(("FooPattern"), [sampleReplOldNewRec, sampleErasedOldRec])]
    [(("OldOp"), [("FooPattern")]), (("NewOp"), [("FooPattern")])] (by rfl)
    ("FooPattern") [sampleReplOldNewRec, sampleErasedOldRec] (by decide)
    sampleReplOldNewRec (by decide) ("OldOp") (by decide)

end PatternCatalog
